import Mathlib

/-!
Shallow embedding of the instance-segmentation channel-layout, label-combining,
configuration, training-check and permutation utilities of the repository
(`instanceseg/utils/instance_utils.py` and `instanceseg/train/trainer.py`),
together with theorems settling the specification claims about them.

Integer-valued tensors are modelled as (nested) `List Int`; a per-pixel map is a
flattened list of pixel values (the code treats all spatial positions uniformly,
so the 2-D structure is irrelevant to every claim).  Fallible Python code
(assertions, exceptions) is modelled with `Option`/`Except`.
-/

namespace InstanceSeg

/-- Embeds `get_semantic_instance_class_list` (instance_utils.py):
`[sem_cls for sem_cls, n_channels in enumerate(n_channels_by_semantic_id) for _ in range(n_channels)]`.
The auxiliary carries the running `enumerate` index. -/
def gsiclAux : Nat → List Nat → List Nat
  | _, [] => []
  | i, n :: rest => List.replicate n i ++ gsiclAux (i + 1) rest

/-- `get_semantic_instance_class_list(n_channels_by_semantic_id)`. -/
def get_semantic_instance_class_list (n_channels_by_semantic_id : List Nat) : List Nat :=
  gsiclAux 0 n_channels_by_semantic_id

/-- Number of occurrences of semantic value `s` among the channels before index `c`;
this is what `np.arange(sem_cls_locs.sum())` assigns position-by-position in
`get_instance_count_id_list`. -/
def countBefore (l : List Nat) (c : Nat) (s : Nat) : Nat :=
  ((l.take c).filter (fun x => x = s)).length

/-- Embeds `get_instance_count_id_list` (instance_utils.py).  For every semantic class
present in the list: a class in `non_instance_sem_classes` must occupy exactly one
channel (`assert sum(sem_cls_locs) == 1`, modelled as `none` on failure) and gets
instance id 0; any other class gets `np.arange(count) + (0 if include_channel0 else 1)`
over its channels in order, i.e. channel `c` gets `countBefore c + offset`. -/
def get_instance_count_id_list (semantic_instance_class_list : List Nat)
    (non_instance_sem_classes : List Nat) (include_channel0 : Bool) : Option (List Int) :=
  if semantic_instance_class_list.any
      (fun x => non_instance_sem_classes.contains x &&
        semantic_instance_class_list.count x != 1) then
    none
  else
    some ((List.range semantic_instance_class_list.length).map (fun c =>
      let s := semantic_instance_class_list.getD c 0
      if non_instance_sem_classes.contains s then (0 : Int)
      else Int.ofNat (countBefore semantic_instance_class_list c s +
        (if include_channel0 then 0 else 1))))

/-- Embeds `get_instance_to_semantic_mapping_from_sem_inst_class_list` with the default
`compose_transposed=True`: an `S × N` 0/1 matrix with entry `(sem, inst) = 1` iff channel
`inst` belongs to semantic class `sem`.  `n_semantic_classes = int(max(list) + 1)` raises
`ValueError` on an empty list (`max([])`), modelled as `none`. -/
def get_instance_to_semantic_mapping_from_sicl (semantic_instance_class_list : List Nat) :
    Option (List (List Nat)) :=
  match semantic_instance_class_list.max? with
  | none => none
  | some mx =>
    some ((List.range (mx + 1)).map (fun s =>
      (List.range semantic_instance_class_list.length).map (fun i =>
        if semantic_instance_class_list.getD i 0 = s then 1 else 0)))

/-- Embeds `get_instance_to_semantic_mapping`. -/
def get_instance_to_semantic_mapping (n_instances_by_semantic_id : List Nat) :
    Option (List (List Nat)) :=
  get_instance_to_semantic_mapping_from_sicl
    (get_semantic_instance_class_list n_instances_by_semantic_id)

/-- The fields of `InstanceProblemConfig` (instance_utils.py).  The
`instance_to_semantic_conv1x1` member (a randomly initialised torch module, not data
derived from the inputs) is omitted. -/
structure InstanceProblemConfig where
  map_to_semantic : Bool
  semantic_class_names : Option (List String)
  semantic_vals : List Nat
  void_value : Int
  include_instance_channel0 : Bool
  n_instances_by_semantic_id : List Nat
  model_n_instances_by_semantic_id : List Nat
  model_semantic_instance_class_list : List Nat
  semantic_instance_class_list : List Nat
  n_semantic_classes : Nat
  n_classes : Nat
  sem_ids_by_instance_id : List Nat
  instance_count_id_list : List Int
  model_instance_count_id_list : List Int
  instance_to_semantic_mapping_matrix : List (List Nat)
  deriving DecidableEq, Repr

/-- Embeds `InstanceProblemConfig.__init__`.  Follows the constructor body line by
line; a failing `assert` (directly or inside `get_instance_count_id_list` /
`max([])` inside the mapping-matrix construction) yields `none`.  Python's
`semantic_vals or range(len(...))` treats both `None` and an empty list as falsy. -/
def InstanceProblemConfig.init (n_instances_by_semantic_id : List Nat)
    (semantic_class_names : Option (List String) := none)
    (semantic_vals : Option (List Nat) := none) (void_value : Int := -1)
    (include_instance_channel0 : Bool := false) (map_to_semantic : Bool := false) :
    Option InstanceProblemConfig := do
  match semantic_vals with
  | some v => guard (v.length = n_instances_by_semantic_id.length)
  | none => pure ()
  let vals : List Nat :=
    match semantic_vals with
    | none => List.range n_instances_by_semantic_id.length
    | some v => if v.isEmpty then List.range n_instances_by_semantic_id.length else v
  let n_inst := if map_to_semantic then n_instances_by_semantic_id.map (fun _ => 1)
    else n_instances_by_semantic_id
  let model_n_inst := if map_to_semantic then n_instances_by_semantic_id.map (fun _ => 1)
    else n_instances_by_semantic_id
  -- note: `model_semantic_instance_class_list` is built from the constructor
  -- parameter, not from `self.model_n_instances_by_semantic_id`
  let model_sicl := get_semantic_instance_class_list n_instances_by_semantic_id
  let sicl := get_semantic_instance_class_list n_inst
  let n_sem := vals.length
  let n_cls := if map_to_semantic then n_sem else model_sicl.length
  -- `[id for id, n_inst in enumerate(self.n_instances_by_semantic_id) for _ in range(n_inst)]`
  let sem_ids := get_semantic_instance_class_list n_inst
  let icl ← get_instance_count_id_list sicl [0] include_instance_channel0
  let model_icl ← get_instance_count_id_list model_sicl [0] include_instance_channel0
  let mat ← get_instance_to_semantic_mapping model_n_inst
  pure { map_to_semantic := map_to_semantic
         semantic_class_names := semantic_class_names
         semantic_vals := vals
         void_value := void_value
         include_instance_channel0 := include_instance_channel0
         n_instances_by_semantic_id := n_inst
         model_n_instances_by_semantic_id := model_n_inst
         model_semantic_instance_class_list := model_sicl
         semantic_instance_class_list := sicl
         n_semantic_classes := n_sem
         n_classes := n_cls
         sem_ids_by_instance_id := sem_ids
         instance_count_id_list := icl
         model_instance_count_id_list := model_icl
         instance_to_semantic_mapping_matrix := mat }

/-- Embeds `InstanceProblemConfig.set_class_names`: asserts the name list (when not
`None`) has length `n_semantic_classes`, then overwrites `self.semantic_class_names`. -/
def InstanceProblemConfig.set_class_names (cfg : InstanceProblemConfig)
    (class_names : Option (List String)) : Option InstanceProblemConfig :=
  if (match class_names with
      | none => true
      | some ns => ns.length == cfg.n_semantic_classes) then
    some { cfg with semantic_class_names := class_names }
  else
    none

/-- Insertion of an integer into a (≤)-sorted list, for modelling `np.unique`. -/
def insertSorted (x : Int) : List Int → List Int
  | [] => [x]
  | y :: ys => if x ≤ y then x :: y :: ys else y :: insertSorted x ys

/-- Ascending insertion sort on integers. -/
def sortInts (l : List Int) : List Int :=
  l.foldr insertSorted []

/-- `np.unique(l)`: the distinct values of `l` in ascending order. -/
def uniqueSorted (l : List Int) : List Int :=
  sortInts l.dedup

/-- The channel order traversed by `combine_semantic_and_instance_labels`:
`for sem_val in np.unique(semantic_instance_class_list): for sem_inst_idx in
[i for i, s in enumerate(list) if s == sem_val]`. -/
def combineOrder (semantic_instance_class_list : List Int) : List Nat :=
  (uniqueSorted semantic_instance_class_list).flatMap (fun s =>
    (List.range semantic_instance_class_list.length).filter
      (fun i => semantic_instance_class_list.getD i 0 = s))

/-- One masked assignment
`y[(sem_lbl == int(sem_val)) * (inst_lbl == int(inst_val))] = sem_inst_idx`
of `combine_semantic_and_instance_labels`, for channel `c`. -/
def combineStep (sem_lbl inst_lbl : List Int)
    (semantic_instance_class_list instance_count_id_list : List Int)
    (y : List Int) (c : Nat) : List Int :=
  (List.range y.length).map (fun p =>
    if sem_lbl.getD p 0 = semantic_instance_class_list.getD c 0 ∧
       inst_lbl.getD p 0 = instance_count_id_list.getD c 0 then
      (c : Int)
    else y.getD p 0)

/-- Embeds `combine_semantic_and_instance_labels` (instance_utils.py), with pixel maps
flattened to lists.  `assert sem_lbl.shape == inst_lbl.shape` and the `IndexError` that
`instance_count_id_list[sem_inst_idx]` would raise on a too-short list are modelled as
`none`; otherwise `y` starts as a void-filled copy of `inst_lbl` and each channel in
`combineOrder` overwrites the pixels whose (semantic, instance) values are its own. -/
def combine_semantic_and_instance_labels (sem_lbl inst_lbl : List Int)
    (semantic_instance_class_list instance_count_id_list : List Int)
    (void_value : Int := -1) : Option (List Int) :=
  if sem_lbl.length = inst_lbl.length ∧
     (combineOrder semantic_instance_class_list).all
       (fun c => c < instance_count_id_list.length) then
    some ((combineOrder semantic_instance_class_list).foldl
      (combineStep sem_lbl inst_lbl semantic_instance_class_list instance_count_id_list)
      (inst_lbl.map (fun _ => void_value)))
  else none

/-- A floating-point scalar for the trainer checks, abstracted to what the claims
depend on: either a finite value (with its integer order structure) or a non-finite
one (`nan`/`inf`). -/
inductive FloatV where
  | fin (v : Int)
  | nonfin
  deriving DecidableEq, Repr

/-- Modelled from the spec: `is_nan` is imported from `instanceseg.models.model_utils`,
which is absent from the sources; per the spec the engine must "detect and fail fast
... if resulting loss or scores contain non-finite values", so this predicate holds
exactly on non-finite scalars. -/
def is_nan : FloatV → Bool
  | .fin _ => false
  | .nonfin => true

/-- Modelled from the spec: `any_nan` (also from the absent
`instanceseg.models.model_utils`) — some entry of the tensor is non-finite. -/
def any_nan (t : List FloatV) : Bool :=
  t.any is_nan

/-- `loss.data[0] > 1e4`: comparison of a scalar with a finite threshold (a comparison
against `nan` is false; the branch is only reached on finite values, the non-finite
case having raised already). -/
def fval_gt (a : FloatV) (t : Int) : Bool :=
  match a with
  | .fin v => t < v
  | .nonfin => false

/-- Embeds `debug_check_values_are_valid` (trainer.py): raise `ValueError` when the
loss is non-finite; print a warning when the loss exceeds `1e4`; raise `ValueError`
when any score entry is non-finite.  `.error` carries the exception message,
`.ok` the warnings printed. -/
def debug_check_values_are_valid (loss : FloatV) (score : List FloatV) :
    Except String (List String) :=
  if is_nan loss then
    Except.error "losses is nan while training"
  else
    let warnings := if fval_gt loss 10000 then ["WARNING: losses is large"] else []
    if any_nan score then
      Except.error "score is nan while training"
    else
      Except.ok warnings

/-- The gradient-related side effects of `Trainer.train_iteration` that follow the
validity check: `loss.backward()` then `self.optim.step()`. -/
inductive TrainEffect where
  | backward
  | optimStep
  deriving DecidableEq, Repr

/-- Embeds the tail of `Trainer.train_iteration` (trainer.py) from the point the loss
has been computed: `debug_check_values_are_valid(loss, score, ...)` runs first, and
only if it does not raise do `loss.backward()` and `self.optim.step()` execute.
The result records the warnings printed and the gradient effects performed. -/
def train_iteration_tail (loss : FloatV) (score : List FloatV) :
    Except String (List String × List TrainEffect) :=
  match debug_check_values_are_valid loss score with
  | Except.error e => Except.error e
  | Except.ok warnings =>
      Except.ok (warnings, [TrainEffect.backward, TrainEffect.optimStep])

/-- Embeds the call-boundary shape guard of `Trainer.compute_loss` (trainer.py):
`if not (sem_lbl.size() == inst_lbl.size() == (score.size(0), score.size(2),
score.size(3))): raise Exception(...)`, before `loss_fcn` is invoked.  Tensors are
modelled by their sizes; the loss function is a parameter, so the theorem that the
mismatch result is the same for every `lossFcn` expresses that it is never invoked. -/
def compute_loss (lossFcn : Unit → α) (score_size : Nat × Nat × Nat × Nat)
    (sem_lbl_size inst_lbl_size : Nat × Nat × Nat) : Except String α :=
  if ¬(sem_lbl_size = inst_lbl_size ∧
       inst_lbl_size = (score_size.1, score_size.2.2.1, score_size.2.2.2)) then
    Except.error "Sizes of score, targets are incorrect"
  else
    Except.ok (lossFcn ())

/-- First channel index holding the maximum of a per-pixel score column: the model of
a channel-wise `argmax`. -/
def channel_argmax (l : List Int) : Nat :=
  l.findIdx (fun x => l.all (fun y => y ≤ x))

/-- Per-pixel channel-wise argmax over one image (channels × pixels), the label map a
prediction is reduced to. -/
def channelwise_argmax (img : List (List Int)) : List Int :=
  (List.range (img.getD 0 []).length).map (fun p =>
    ((channel_argmax (img.map (fun chArr => chArr.getD p 0)) : Nat) : Int))

/-- Embeds `permute_scores` (instance_utils.py).  The loop body
`score_permuted[:, ch, :, :] = score[:, pred_permutations[:, ch], :, :]`
advanced-indexes dim 1 with the length-`B` vector `pred_permutations[:, ch]`,
producing a `(B, B, H, W)` tensor whose assignment into the `(B, H, W)` slice raises
a broadcast/shape error for every batch size other than 1 — modelled as `none`.
With zero channels the loop body never runs and the clone of `score` is returned;
for `B = 1` (leading unit dim) each assignment computes the per-image gather
`new[0][ch] = old[0][pred_permutations[0][ch]]`. -/
def permute_scores (score : List (List (List Int))) (pred_permutations : List (List Nat)) :
    Option (List (List (List Int))) :=
  if (score.getD 0 []).length = 0 then some score
  else if score.length = 1 then
    some ((List.range score.length).map (fun b =>
      (List.range (score.getD b []).length).map (fun ch =>
        (score.getD b []).getD ((pred_permutations.getD b []).getD ch 0) [])))
  else none

/-- One masked assignment `label_preds_permuted[label_preds == old_channel] = new_channel`
of `permute_labels`: the mask is taken on the ORIGINAL `label_preds` (over the whole
batch — the loop body carries no batch index) and written into the accumulator. -/
def substStep (label_preds cur : List (List Int)) (oldc newc : Int) : List (List Int) :=
  List.zipWith (fun orig c =>
    List.zipWith (fun o v => if o = oldc then newc else v) orig c) label_preds cur

/-- Embeds `permute_labels` (instance_utils.py): for each row of `permutations`
(in order), for each `(new_channel, old_channel) in enumerate(row)`, every pixel of the
whole batch whose original label equals `old_channel` is set to `new_channel`. -/
def permute_labels (label_preds : List (List Int)) (permutations : List (List Nat)) :
    List (List Int) :=
  permutations.foldl (fun cur row =>
    row.enum.foldl (fun cur2 pr => substStep label_preds cur2 (pr.2 : Int) (pr.1 : Int)) cur)
    label_preds

/-- A concrete `InstanceProblemConfig` (the value `__init__` builds for
`n_instances_by_semantic_id = [1, 2]` with defaults), used to instantiate theorems
about `set_class_names`. -/
def cfgW : InstanceProblemConfig :=
  { map_to_semantic := false
    semantic_class_names := none
    semantic_vals := [0, 1]
    void_value := -1
    include_instance_channel0 := false
    n_instances_by_semantic_id := [1, 2]
    model_n_instances_by_semantic_id := [1, 2]
    model_semantic_instance_class_list := [0, 1, 1]
    semantic_instance_class_list := [0, 1, 1]
    n_semantic_classes := 2
    n_classes := 3
    sem_ids_by_instance_id := [0, 1, 1]
    instance_count_id_list := [0, 1, 2]
    model_instance_count_id_list := [0, 1, 2]
    instance_to_semantic_mapping_matrix := [[1, 0, 0], [0, 1, 1]] }

/-- The configuration `cfgW` after `set_class_names(["a", "b"])`. -/
def cfgW2 : InstanceProblemConfig :=
  (cfgW.set_class_names (some ["a", "b"])).getD cfgW

/-! ### Helper lemmas -/

theorem getD_range_map {α : Type} (f : Nat → α) (n p : Nat) (d : α) (hp : p < n) :
    ((List.range n).map f).getD p d = f p := by
  rw [List.getD_eq_getElem?_getD, List.getElem?_map, List.getElem?_range hp]
  rfl

theorem getD_map_const {α β : Type} (l : List α) (v : β) (p : Nat) (d : β)
    (hp : p < l.length) : (l.map (fun _ => v)).getD p d = v := by
  rw [List.getD_eq_getElem?_getD, List.getElem?_map,
    List.getElem?_eq_getElem hp]
  rfl

theorem combineOrder_mem {sicl : List Int} {c : Nat} (h : c ∈ combineOrder sicl) :
    c < sicl.length := by
  rcases List.mem_flatMap.mp h with ⟨s, _, hc⟩
  exact List.mem_range.mp (List.mem_filter.mp hc).1

theorem combineStep_length (sem_lbl inst_lbl sicl icil y : List Int) (c : Nat) :
    (combineStep sem_lbl inst_lbl sicl icil y c).length = y.length := by
  simp [combineStep]

theorem combineStep_getD (sem_lbl inst_lbl sicl icil y : List Int) (c p : Nat)
    (hp : p < y.length) :
    (combineStep sem_lbl inst_lbl sicl icil y c).getD p 0 =
      if sem_lbl.getD p 0 = sicl.getD c 0 ∧ inst_lbl.getD p 0 = icil.getD c 0 then
        (c : Int)
      else y.getD p 0 :=
  getD_range_map _ _ _ _ hp

theorem combine_foldl_length (sem_lbl inst_lbl sicl icil : List Int) :
    ∀ (order : List Nat) (y : List Int),
      (order.foldl (combineStep sem_lbl inst_lbl sicl icil) y).length = y.length := by
  intro order
  induction order with
  | nil => intro y; rfl
  | cons c rest ih =>
      intro y
      rw [List.foldl_cons, ih, combineStep_length]

theorem combine_foldl_getD (sem_lbl inst_lbl sicl icil : List Int) :
    ∀ (order : List Nat) (y : List Int) (p : Nat), p < y.length →
      (order.foldl (combineStep sem_lbl inst_lbl sicl icil) y).getD p 0 =
        order.foldl (fun v c =>
          if sem_lbl.getD p 0 = sicl.getD c 0 ∧ inst_lbl.getD p 0 = icil.getD c 0 then
            (c : Int)
          else v) (y.getD p 0) := by
  intro order
  induction order with
  | nil => intro y p _; rfl
  | cons c rest ih =>
      intro y p hp
      rw [List.foldl_cons, List.foldl_cons,
        ih _ p (by rw [combineStep_length]; exact hp),
        combineStep_getD _ _ _ _ _ _ _ hp]

theorem combine_eq_some (sem_lbl inst_lbl sicl icil : List Int) (void_value : Int)
    (hlen : sem_lbl.length = inst_lbl.length) (hpar : sicl.length ≤ icil.length) :
    combine_semantic_and_instance_labels sem_lbl inst_lbl sicl icil void_value =
      some ((combineOrder sicl).foldl
        (combineStep sem_lbl inst_lbl sicl icil)
        (inst_lbl.map (fun _ => void_value))) := by
  unfold combine_semantic_and_instance_labels
  rw [if_pos]
  refine ⟨hlen, List.all_eq_true.mpr ?_⟩
  intro c hc
  exact decide_eq_true (Nat.lt_of_lt_of_le (combineOrder_mem hc) hpar)

theorem foldl_if_no_match (cond : Nat → Prop) [DecidablePred cond] :
    ∀ (l : List Nat) (v0 : Int), (∀ c ∈ l, ¬cond c) →
      l.foldl (fun v c => if cond c then (c : Int) else v) v0 = v0 := by
  intro l
  induction l with
  | nil => intro v0 _; rfl
  | cons c rest ih =>
      intro v0 h
      rw [List.foldl_cons, if_neg (h c (by simp))]
      exact ih v0 (fun x hx => h x (by simp [hx]))

theorem foldl_if_result (cond : Nat → Prop) [DecidablePred cond] :
    ∀ (l : List Nat) (v0 : Int),
      l.foldl (fun v c => if cond c then (c : Int) else v) v0 = v0 ∨
        ∃ c ∈ l, cond c ∧
          l.foldl (fun v c => if cond c then (c : Int) else v) v0 = (c : Int) := by
  intro l
  induction l with
  | nil => intro v0; exact Or.inl rfl
  | cons c rest ih =>
      intro v0
      rw [List.foldl_cons]
      by_cases hc : cond c
      · rw [if_pos hc]
        rcases ih (c : Int) with h | ⟨c2, hc2, hcond2, heq⟩
        · exact Or.inr ⟨c, by simp, hc, h⟩
        · exact Or.inr ⟨c2, by simp [hc2], hcond2, heq⟩
      · rw [if_neg hc]
        rcases ih v0 with h | ⟨c2, hc2, hcond2, heq⟩
        · exact Or.inl h
        · exact Or.inr ⟨c2, by simp [hc2], hcond2, heq⟩

theorem gsiclAux_length : ∀ (l : List Nat) (i : Nat), (gsiclAux i l).length = l.sum := by
  intro l
  induction l with
  | nil => intro i; rfl
  | cons n rest ih =>
      intro i
      rw [gsiclAux, List.length_append, List.length_replicate, ih, List.sum_cons]

theorem gsicl_length (l : List Nat) :
    (get_semantic_instance_class_list l).length = l.sum :=
  gsiclAux_length l 0

theorem gsiclAux_count_lt : ∀ (l : List Nat) (i s : Nat), s < i →
    (gsiclAux i l).count s = 0 := by
  intro l
  induction l with
  | nil => intro i s _; rfl
  | cons n rest ih =>
      intro i s hs
      rw [gsiclAux, List.count_append, List.count_replicate, ih (i + 1) s (by omega),
        if_neg (by simp; omega)]

theorem gsicl_count_zero (l : List Nat) :
    (get_semantic_instance_class_list l).count 0 = l.headD 0 := by
  cases l with
  | nil => rfl
  | cons n rest =>
      show (gsiclAux 0 (n :: rest)).count 0 = n
      rw [gsiclAux, List.count_append, List.count_replicate,
        gsiclAux_count_lt rest 1 0 (by omega), if_pos (by simp)]
      omega

theorem gsicl_ne_nil {l : List Nat} {x : Nat}
    (h : x ∈ get_semantic_instance_class_list l) : l ≠ [] := by
  intro hnil
  subst hnil
  exact absurd h (by simp [get_semantic_instance_class_list, gsiclAux])

theorem two_le_count_of_two_positions (l : List Nat) (c1 c2 s : Nat)
    (h12 : c1 < c2) (h2 : c2 < l.length) (hv1 : l.getD c1 0 = s)
    (hv2 : l.getD c2 0 = s) : 2 ≤ l.count s := by
  have h1 : c1 < l.length := Nat.lt_trans h12 h2
  have hsplit : l.take c2 ++ l.drop c2 = l := List.take_append_drop c2 l
  have hcount : l.count s = (l.take c2).count s + (l.drop c2).count s := by
    conv_lhs => rw [← hsplit]
    exact List.count_append s _ _
  have hmem1 : s ∈ l.take c2 := by
    have hlt : c1 < (l.take c2).length := by
      rw [List.length_take]; omega
    have : (l.take c2)[c1] = l[c1] := List.getElem_take l
    rw [← hv1, List.getD_eq_getElem l 0 h1, ← this]
    exact List.getElem_mem hlt
  have hcount1 : 1 ≤ (l.take c2).count s := List.one_le_count_iff.mpr hmem1
  have hcount2 : 1 ≤ (l.drop c2).count s := by
    rw [List.drop_eq_getElem_cons h2, List.count_cons]
    have : l[c2] = s := by rw [← List.getD_eq_getElem l 0 h2, hv2]
    simp [this]
  omega

theorem countBefore_succ (l : List Nat) (c s : Nat) (hc : c < l.length) :
    countBefore l (c + 1) s =
      countBefore l c s + (if l.getD c 0 = s then 1 else 0) := by
  unfold countBefore
  rw [List.take_succ, List.getElem?_eq_getElem hc, List.filter_append,
    List.length_append, List.getD_eq_getElem l 0 hc]
  congr 1
  by_cases h : l[c] = s <;> simp [h]

theorem countBefore_mono (l : List Nat) (c c' s : Nat) (hcc : c ≤ c') :
    countBefore l c s ≤ countBefore l c' s := by
  unfold countBefore
  have hsplit : l.take c ++ (l.take c').drop c = l.take c' := by
    have h1 : (l.take c').take c = l.take c := by
      rw [List.take_take, Nat.min_eq_left hcc]
    conv_rhs => rw [← List.take_append_drop c (l.take c'), h1]
  rw [← hsplit, List.filter_append, List.length_append]
  omega

theorem countBefore_lt (l : List Nat) (c1 c2 s : Nat) (h12 : c1 < c2)
    (h1 : c1 < l.length) (hv : l.getD c1 0 = s) :
    countBefore l c1 s < countBefore l c2 s := by
  have hstep := countBefore_succ l c1 s h1
  rw [if_pos hv] at hstep
  have := countBefore_mono l (c1 + 1) c2 s h12
  omega

theorem gicl_eq_none_iff (sicl : List Nat) (b : Bool) :
    get_instance_count_id_list sicl [0] b = none ↔ 0 ∈ sicl ∧ sicl.count 0 ≠ 1 := by
  have hcond : (sicl.any fun x => [0].contains x && sicl.count x != 1) = true ↔
      (0 ∈ sicl ∧ sicl.count 0 ≠ 1) := by
    rw [List.any_eq_true]
    constructor
    · rintro ⟨x, hx, hb⟩
      rcases (Bool.and_eq_true _ _).mp hb with ⟨hc, hcnt⟩
      have hx0 : x = 0 := by simpa using hc
      subst hx0
      exact ⟨hx, by simpa using hcnt⟩
    · rintro ⟨h0, hc⟩
      exact ⟨0, h0, by simp [hc]⟩
  unfold get_instance_count_id_list
  by_cases h : (sicl.any fun x => [0].contains x && sicl.count x != 1) = true
  · rw [if_pos h]
    simpa using hcond.mp h
  · rw [if_neg h]
    simp only [Option.some_ne_none] -- some _ = none is false
    constructor
    · intro hfalse; exact absurd hfalse (by simp)
    · intro hrhs; exact absurd (hcond.mpr hrhs) h

theorem gicl_eq_some (sicl : List Nat) (b : Bool)
    (h : ¬(0 ∈ sicl ∧ sicl.count 0 ≠ 1)) :
    get_instance_count_id_list sicl [0] b =
      some ((List.range sicl.length).map (fun c =>
        let s := sicl.getD c 0
        if [0].contains s then (0 : Int)
        else Int.ofNat (countBefore sicl c s + (if b then 0 else 1)))) := by
  unfold get_instance_count_id_list
  rw [if_neg]
  intro hany
  exact h ((gicl_eq_none_iff sicl b).mp (by unfold get_instance_count_id_list; rw [if_pos hany]))

theorem mapping_none_iff (l : List Nat) :
    get_instance_to_semantic_mapping l = none ↔ l.sum = 0 := by
  unfold get_instance_to_semantic_mapping get_instance_to_semantic_mapping_from_sicl
  cases hmx : (get_semantic_instance_class_list l).max? with
  | none =>
      have hnil := List.max?_eq_none_iff.mp hmx
      have : l.sum = 0 := by
        rw [← gsicl_length l, hnil]; rfl
      simp [this]
  | some mx =>
      have hne : get_semantic_instance_class_list l ≠ [] := by
        intro hnil
        rw [hnil] at hmx
        exact absurd hmx (by simp)
      have : l.sum ≠ 0 := by
        intro hz
        apply hne
        have := gsicl_length l
        rw [hz] at this
        exact List.eq_nil_of_length_eq_zero this
      simp [this]

theorem gsiclAux_ones : ∀ (l : List Nat) (i : Nat),
    gsiclAux i (l.map fun _ => 1) = List.range' i l.length := by
  intro l
  induction l with
  | nil => intro i; rfl
  | cons a rest ih =>
      intro i
      show List.replicate 1 i ++ gsiclAux (i + 1) (rest.map fun _ => 1) =
        List.range' i (rest.length + 1)
      rw [ih (i + 1), List.range'_succ]
      rfl

theorem gsicl_ones (l : List Nat) :
    get_semantic_instance_class_list (l.map fun _ => 1) = List.range l.length := by
  rw [get_semantic_instance_class_list, gsiclAux_ones, List.range_eq_range']

/-! ### Claim theorems -/

/-- C1: label-combiner round trip.  For every input pair (sem_lbl, inst_lbl) and every
channel layout whose (semantic class, instance slot) pairs are pairwise distinct, every
non-void pixel `y[p]` of the `combine_semantic_and_instance_labels` output is a channel
index `c` with `semantic_instance_class_list[c] = sem_lbl[p]` and
`instance_count_id_list[c] = inst_lbl[p]`: the combined channel id, run back through the
two parallel lists, recovers the original (sem, inst) pair. -/
theorem C1_label_combiner_roundtrip (sem_lbl inst_lbl sicl icil : List Int)
    (void_value : Int) (y : List Int)
    (hdist : ∀ c1 c2, c1 < sicl.length → c2 < sicl.length →
      sicl.getD c1 0 = sicl.getD c2 0 → icil.getD c1 0 = icil.getD c2 0 → c1 = c2)
    (hy : combine_semantic_and_instance_labels sem_lbl inst_lbl sicl icil void_value =
      some y)
    (p : Nat) (hp : p < y.length) (hnv : y.getD p 0 ≠ void_value) :
    ∃ c : Nat, c < sicl.length ∧ y.getD p 0 = (c : Int) ∧
      sicl.getD c 0 = sem_lbl.getD p 0 ∧ icil.getD c 0 = inst_lbl.getD p 0 := by
  unfold combine_semantic_and_instance_labels at hy
  split at hy
  case isFalse => exact absurd hy (by simp)
  case isTrue hcond =>
    have hyv := Option.some.inj hy
    subst hyv
    have hp2 : p < (inst_lbl.map (fun _ => void_value)).length := by
      rwa [combine_foldl_length] at hp
    rw [combine_foldl_getD _ _ _ _ _ _ p hp2,
      getD_map_const _ _ _ _ (by rwa [List.length_map] at hp2)] at hnv ⊢
    rcases foldl_if_result
        (fun c => sem_lbl.getD p 0 = sicl.getD c 0 ∧ inst_lbl.getD p 0 = icil.getD c 0)
        (combineOrder sicl) void_value with h | ⟨c, hc, hcond2, heq⟩
    · exact absurd h hnv
    · exact ⟨c, combineOrder_mem hc, heq, hcond2.1.symm, hcond2.2.symm⟩

/-- Witness for C1 at a concrete input: layout with the single channel `(0, 0)`,
one pixel with values `(0, 0)`; the combined output `[0]` is non-void at pixel 0 and
recovers the pair. -/
theorem C1_label_combiner_roundtrip_witness :
    ∃ c : Nat, c < ([0] : List Int).length ∧ ([0] : List Int).getD 0 0 = (c : Int) ∧
      ([0] : List Int).getD c 0 = ([0] : List Int).getD 0 0 ∧
      ([0] : List Int).getD c 0 = ([0] : List Int).getD 0 0 :=
  C1_label_combiner_roundtrip [0] [0] [0] [0] (-1) [0]
    (by intro c1 c2 h1 h2 _ _; simp at h1 h2; omega) (by decide) 0 (by decide)
    (by decide)

/-- C2: silent-drop overflow policy.  Under matching shapes and parallel layout lists,
`combine_semantic_and_instance_labels` returns a result (raises no error), and every
pixel whose (sem, inst) value pair is owned by no channel — in particular one whose
instance id exceeds the channel budget of its semantic class — is set to the void
value. -/
theorem C2_silent_drop_overflow (sem_lbl inst_lbl sicl icil : List Int)
    (void_value : Int)
    (hlen : sem_lbl.length = inst_lbl.length) (hpar : sicl.length ≤ icil.length) :
    ∃ y, combine_semantic_and_instance_labels sem_lbl inst_lbl sicl icil void_value =
        some y ∧
      y.length = inst_lbl.length ∧
      ∀ p, p < y.length →
        (∀ c, c < sicl.length →
          ¬(sem_lbl.getD p 0 = sicl.getD c 0 ∧ inst_lbl.getD p 0 = icil.getD c 0)) →
        y.getD p 0 = void_value := by
  refine ⟨_, combine_eq_some sem_lbl inst_lbl sicl icil void_value hlen hpar, ?_, ?_⟩
  · rw [combine_foldl_length, List.length_map]
  · intro p hp hnomatch
    have hp2 : p < (inst_lbl.map (fun _ => void_value)).length := by
      rwa [combine_foldl_length] at hp
    rw [combine_foldl_getD _ _ _ _ _ _ p hp2,
      getD_map_const _ _ _ _ (by rwa [List.length_map] at hp2)]
    exact foldl_if_no_match _ _ _
      (fun c hc => hnomatch c (combineOrder_mem hc))

/-- Witness for C2 at a concrete input: the pixel pair `(5, 7)` is owned by no channel
of the layout `[(0, 1)]`, so it comes back void, with no error raised. -/
theorem C2_silent_drop_overflow_witness :
    ∃ y, combine_semantic_and_instance_labels [5] [7] [0] [1] (-1) = some y ∧
      y.length = ([7] : List Int).length ∧
      ∀ p, p < y.length →
        (∀ c, c < ([0] : List Int).length →
          ¬(([5] : List Int).getD p 0 = ([0] : List Int).getD c 0 ∧
            ([7] : List Int).getD p 0 = ([1] : List Int).getD c 0)) →
        y.getD p 0 = -1 :=
  C2_silent_drop_overflow [5] [7] [0] [1] (-1) rfl (Nat.le_refl 1)

/-- C3: output range and void propagation.  With the default void value `-1`,
non-negative channel/slot ids and equal input shapes,
`combine_semantic_and_instance_labels` returns a map of the same shape, every pixel of
which lies in `[0, n_channels)` or is void, and every pixel that is void in either
input map is void in the output. -/
theorem C3_output_range_void_propagation (sem_lbl inst_lbl sicl icil : List Int)
    (hlen : sem_lbl.length = inst_lbl.length) (hpar : sicl.length ≤ icil.length)
    (hsem : ∀ v ∈ sicl, 0 ≤ v) (hinst : ∀ v ∈ icil, 0 ≤ v) :
    ∃ y, combine_semantic_and_instance_labels sem_lbl inst_lbl sicl icil (-1) =
        some y ∧
      y.length = sem_lbl.length ∧
      (∀ p, p < y.length →
        y.getD p 0 = -1 ∨ (0 ≤ y.getD p 0 ∧ y.getD p 0 < (sicl.length : Int))) ∧
      (∀ p, p < y.length → (sem_lbl.getD p 0 = -1 ∨ inst_lbl.getD p 0 = -1) →
        y.getD p 0 = -1) := by
  refine ⟨_, combine_eq_some sem_lbl inst_lbl sicl icil (-1) hlen hpar, ?_, ?_, ?_⟩
  · rw [combine_foldl_length, List.length_map, hlen]
  all_goals intro p hp
  · have hp2 : p < (inst_lbl.map (fun _ => (-1 : Int))).length := by
      rwa [combine_foldl_length] at hp
    rw [combine_foldl_getD _ _ _ _ _ _ p hp2,
      getD_map_const _ _ _ _ (by rwa [List.length_map] at hp2)]
    rcases foldl_if_result
        (fun c => sem_lbl.getD p 0 = sicl.getD c 0 ∧ inst_lbl.getD p 0 = icil.getD c 0)
        (combineOrder sicl) (-1) with h | ⟨c, hc, _, heq⟩
    · exact Or.inl h
    · refine Or.inr ?_
      rw [heq]
      have := combineOrder_mem hc
      exact ⟨Int.ofNat_nonneg c, Int.ofNat_lt.mpr this⟩
  · intro hvoid
    have hp2 : p < (inst_lbl.map (fun _ => (-1 : Int))).length := by
      rwa [combine_foldl_length] at hp
    rw [combine_foldl_getD _ _ _ _ _ _ p hp2,
      getD_map_const _ _ _ _ (by rwa [List.length_map] at hp2)]
    refine foldl_if_no_match _ _ _ (fun c hc hcond => ?_)
    have hcl := combineOrder_mem hc
    rcases hvoid with hv | hv
    · have h0 : (0 : Int) ≤ sicl.getD c 0 := by
        rw [List.getD_eq_getElem sicl 0 hcl]
        exact hsem _ (List.getElem_mem hcl)
      rw [hv] at hcond
      omega
    · have h0 : (0 : Int) ≤ icil.getD c 0 := by
        rw [List.getD_eq_getElem icil 0 (Nat.lt_of_lt_of_le hcl hpar)]
        exact hinst _ (List.getElem_mem _)
      rw [hv] at hcond
      omega

/-- Witness for C3 at a concrete input: one valid pixel `(0, 0)`, one pixel void in
both inputs, layout `[(0, 0)]`. -/
theorem C3_output_range_void_propagation_witness :
    ∃ y, combine_semantic_and_instance_labels [0, -1] [0, -1] [0] [0] (-1) = some y ∧
      y.length = ([0, -1] : List Int).length ∧
      (∀ p, p < y.length →
        y.getD p 0 = -1 ∨
          (0 ≤ y.getD p 0 ∧ y.getD p 0 < (([0] : List Int).length : Int))) ∧
      (∀ p, p < y.length →
        (([0, -1] : List Int).getD p 0 = -1 ∨ ([0, -1] : List Int).getD p 0 = -1) →
        y.getD p 0 = -1) :=
  C3_output_range_void_propagation [0, -1] [0, -1] [0] [0] rfl (Nat.le_refl 1)
    (by decide) (by decide)

/-- C4: channel-layout round trip.  For every valid `n_instances_by_semantic_class`
(each entry at least 1, the non-instance class 0 with exactly one channel), the two
parallel lists built by `get_semantic_instance_class_list` and
`get_instance_count_id_list` exist, have total length equal to the sum of the input
counts, and the derived (semantic class, instance slot) pair of every channel index is
distinct: every channel appears exactly once in the pairing. -/
theorem C4_channel_layout_roundtrip (l : List Nat) (include_channel0 : Bool)
    (hpos : ∀ x ∈ l, 1 ≤ x) (h0 : 0 < l.length → l.getD 0 0 = 1) :
    ∃ icl, get_instance_count_id_list (get_semantic_instance_class_list l) [0]
        include_channel0 = some icl ∧
      (get_semantic_instance_class_list l).length = l.sum ∧
      icl.length = l.sum ∧
      ∀ c1 c2, c1 < l.sum → c2 < l.sum →
        (get_semantic_instance_class_list l).getD c1 0 =
          (get_semantic_instance_class_list l).getD c2 0 →
        icl.getD c1 0 = icl.getD c2 0 → c1 = c2 := by
  set sicl := get_semantic_instance_class_list l with hsicl
  have hcount0 : 0 ∈ sicl → sicl.count 0 = 1 := by
    intro hmem
    have hne : l ≠ [] := gsicl_ne_nil hmem
    have hlen : 0 < l.length := by
      cases l with
      | nil => exact absurd rfl hne
      | cons n rest => simp
    have hhead : l.headD 0 = l.getD 0 0 := by
      cases l with
      | nil => rfl
      | cons n rest => rfl
    rw [gsicl_count_zero, hhead, h0 hlen]
  have hok : ¬(0 ∈ sicl ∧ sicl.count 0 ≠ 1) := by
    rintro ⟨hmem, hne⟩
    exact hne (hcount0 hmem)
  have hlength : sicl.length = l.sum := gsicl_length l
  refine ⟨_, gicl_eq_some sicl include_channel0 hok, hlength, ?_, ?_⟩
  · rw [List.length_map, List.length_range, hlength]
  · intro c1 c2 h1 h2 hseq hieq
    have h1l : c1 < sicl.length := by rw [hlength]; exact h1
    have h2l : c2 < sicl.length := by rw [hlength]; exact h2
    rw [getD_range_map _ _ _ _ h1l, getD_range_map _ _ _ _ h2l] at hieq
    simp only at hieq
    by_cases hs : sicl.getD c1 0 = 0
    · -- both channels belong to class 0, which has exactly one channel
      have hmem : (0 : Nat) ∈ sicl := by
        rw [← hs, List.getD_eq_getElem sicl 0 h1l]
        exact List.getElem_mem h1l
      have hcnt := hcount0 hmem
      rcases Nat.lt_trichotomy c1 c2 with h | h | h
      · have := two_le_count_of_two_positions sicl c1 c2 0 h h2l hs (hseq ▸ hs)
        omega
      · exact h
      · have := two_le_count_of_two_positions sicl c2 c1 0 h h1l (hseq ▸ hs) hs
        omega
    · -- an instance class: slot ids are countBefore + offset, strictly increasing
      have hs2 : sicl.getD c2 0 ≠ 0 := by rw [← hseq]; exact hs
      have hc1 : ([0].contains (sicl.getD c1 0)) = false := by
        cases hval : sicl.getD c1 0 with
        | zero => exact absurd hval hs
        | succ k => rfl
      have hc2 : ([0].contains (sicl.getD c2 0)) = false := by
        cases hval : sicl.getD c2 0 with
        | zero => exact absurd hval hs2
        | succ k => rfl
      rw [hc1, hc2] at hieq
      simp only [Bool.false_eq_true, if_false, ← hseq] at hieq
      have hcb : countBefore sicl c1 (sicl.getD c1 0) =
          countBefore sicl c2 (sicl.getD c1 0) := by
        have := Int.ofNat_inj.mp hieq
        omega
      rcases Nat.lt_trichotomy c1 c2 with h | h | h
      · have := countBefore_lt sicl c1 c2 _ h h1l rfl
        omega
      · exact h
      · have := countBefore_lt sicl c2 c1 _ h h2l hseq.symm
        omega

/-- Witness for C4 at a concrete input: the valid configuration `[1, 2]`. -/
theorem C4_channel_layout_roundtrip_witness :
    ∃ icl, get_instance_count_id_list (get_semantic_instance_class_list [1, 2]) [0]
        false = some icl ∧
      (get_semantic_instance_class_list [1, 2]).length = [1, 2].sum ∧
      icl.length = [1, 2].sum ∧
      ∀ c1 c2, c1 < [1, 2].sum → c2 < [1, 2].sum →
        (get_semantic_instance_class_list [1, 2]).getD c1 0 =
          (get_semantic_instance_class_list [1, 2]).getD c2 0 →
        icl.getD c1 0 = icl.getD c2 0 → c1 = c2 :=
  C4_channel_layout_roundtrip [1, 2] false (by decide) (fun _ => by decide)

/-- C5 counterexample: the claim says a channel count of 0 for some semantic class
makes construction fail, but `InstanceProblemConfig` construction on `[1, 0, 2]`
(class 1 has zero channels) succeeds: the zero-count class is simply absent from the
derived layout, so the `assert` in `get_instance_count_id_list` never fires. -/
theorem C5_zero_count_class_builds :
    (InstanceProblemConfig.init [1, 0, 2] none none (-1) false false).isSome = true := by
  decide

/-- C5 as amended: constructing an `InstanceProblemConfig` (with default options)
fails exactly when semantic class 0 owns two or more channels (the
`assert sum(sem_cls_locs) == 1` in `get_instance_count_id_list`), or when the layout
has zero channels in total (`max` of an empty sequence while building the
instance-to-semantic mapping).  A class with channel count 0 does not itself cause a
failure. -/
theorem C5_invalid_layout_construction (l : List Nat) :
    InstanceProblemConfig.init l none none (-1) false false = none ↔
      2 ≤ l.headD 0 ∨ l.sum = 0 := by
  unfold InstanceProblemConfig.init
  simp only [Bool.false_eq_true, if_false]
  have hhead : (get_semantic_instance_class_list l).count 0 = l.headD 0 :=
    gsicl_count_zero l
  cases hicl : get_instance_count_id_list (get_semantic_instance_class_list l) [0]
      false with
  | none =>
      have hbad := (gicl_eq_none_iff _ _).mp hicl
      have hmem : 1 ≤ (get_semantic_instance_class_list l).count 0 :=
        List.one_le_count_iff.mpr hbad.1
      simp only [Option.pure_def, Option.bind_eq_bind, Option.none_bind,
        Option.some_bind]
      constructor
      · intro _
        left
        omega
      · intro _
        trivial
  | some icl =>
      have hok : ¬(0 ∈ get_semantic_instance_class_list l ∧
          (get_semantic_instance_class_list l).count 0 ≠ 1) := by
        intro hbad
        rw [(gicl_eq_none_iff _ _).mpr hbad] at hicl
        exact absurd hicl (by simp)
      have hnot2 : ¬(2 ≤ l.headD 0) := by
        intro h2
        apply hok
        have hcnt : 2 ≤ (get_semantic_instance_class_list l).count 0 := by omega
        exact ⟨List.one_le_count_iff.mp (by omega), by omega⟩
      cases hmat : get_instance_to_semantic_mapping l with
      | none =>
          have hsum := (mapping_none_iff l).mp hmat
          simp only [Option.pure_def, Option.bind_eq_bind, Option.none_bind,
            Option.some_bind]
          simp [hsum]
      | some mat =>
          have hsum : l.sum ≠ 0 := by
            intro hz
            rw [(mapping_none_iff l).mpr hz] at hmat
            exact absurd hmat (by simp)
          simp only [Option.pure_def, Option.bind_eq_bind, Option.none_bind,
            Option.some_bind]
          simp only [ne_eq, hsum, not_false_eq_true, or_false, iff_false]
          cases l with
          | nil => exact absurd rfl hsum
          | cons a t =>
              simp only [List.headD_cons] at hnot2
              simp
              omega

/-- C6: numerical-validity contract.  After the loss is computed in a training
iteration, a non-finite loss or score raises a `ValueError` before any
gradient-related side effect (`loss.backward()` / `optimizer.step()` never run);
a finite loss above the `1e4` threshold only prints a warning and training continues
with both gradient effects. -/
theorem C6_numerical_validity (loss : FloatV) (score : List FloatV) :
    ((is_nan loss = true ∨ any_nan score = true) →
      ∃ msg, train_iteration_tail loss score = Except.error msg) ∧
    (∀ v : Int, loss = FloatV.fin v → any_nan score = false → 10000 < v →
      train_iteration_tail loss score =
        Except.ok (["WARNING: losses is large"],
          [TrainEffect.backward, TrainEffect.optimStep])) := by
  constructor
  · intro h
    unfold train_iteration_tail debug_check_values_are_valid
    rcases h with h | h
    · simp [h]
    · by_cases hl : is_nan loss <;> simp [hl, h]
  · intro v hv hs hgt
    subst hv
    unfold train_iteration_tail debug_check_values_are_valid
    simp [is_nan, fval_gt, hs, hgt]

/-- Witness for C6 at concrete inputs: a non-finite loss raises; a finite loss of
`2e4` with finite scores warns and continues. -/
theorem C6_numerical_validity_witness :
    (∃ msg, train_iteration_tail FloatV.nonfin [] = Except.error msg) ∧
      train_iteration_tail (FloatV.fin 20000) [FloatV.fin 0] =
        Except.ok (["WARNING: losses is large"],
          [TrainEffect.backward, TrainEffect.optimStep]) :=
  ⟨(C6_numerical_validity FloatV.nonfin []).1 (Or.inl rfl),
   (C6_numerical_validity (FloatV.fin 20000) [FloatV.fin 0]).2 20000 rfl rfl
     (by decide)⟩

/-- C7: shape-mismatch inputs fail at the call boundary.  `Trainer.compute_loss`
answers the shape-mismatch exception for every loss function — so the loss function is
never invoked and its result is independent of it — and
`combine_semantic_and_instance_labels` returns no result (not even a partial one) when
the two label maps have different shapes. -/
theorem C7_shape_mismatch :
    (∀ (α : Type) (lossFcn1 lossFcn2 : Unit → α) (score_size : Nat × Nat × Nat × Nat)
        (sem_size inst_size : Nat × Nat × Nat),
      ¬(sem_size = inst_size ∧
          inst_size = (score_size.1, score_size.2.2.1, score_size.2.2.2)) →
      compute_loss lossFcn1 score_size sem_size inst_size =
          Except.error "Sizes of score, targets are incorrect" ∧
        compute_loss lossFcn1 score_size sem_size inst_size =
          compute_loss lossFcn2 score_size sem_size inst_size) ∧
    (∀ (sem_lbl inst_lbl sicl icil : List Int) (void_value : Int),
      sem_lbl.length ≠ inst_lbl.length →
      combine_semantic_and_instance_labels sem_lbl inst_lbl sicl icil void_value =
        none) := by
  constructor
  · intro α f1 f2 ssize semsize instsize h
    unfold compute_loss
    rw [if_pos h, if_pos h]
    exact ⟨rfl, rfl⟩
  · intro sem_lbl inst_lbl sicl icil v h
    unfold combine_semantic_and_instance_labels
    rw [if_neg]
    intro hc
    exact h hc.1

/-- Witness for C7 at concrete inputs: a score of batch 1 with labels sized for batch
9, and a 1-pixel semantic map with a 2-pixel instance map. -/
theorem C7_shape_mismatch_witness :
    (compute_loss (fun _ => (0 : Nat)) (1, 2, 3, 4) (9, 9, 9) (9, 9, 9) =
        Except.error "Sizes of score, targets are incorrect" ∧
      compute_loss (fun _ => (0 : Nat)) (1, 2, 3, 4) (9, 9, 9) (9, 9, 9) =
        compute_loss (fun _ => (1 : Nat)) (1, 2, 3, 4) (9, 9, 9) (9, 9, 9)) ∧
      combine_semantic_and_instance_labels [0] [0, 0] [0] [0] (-1) = none :=
  ⟨(C7_shape_mismatch.1 Nat (fun _ => 0) (fun _ => 1) (1, 2, 3, 4) (9, 9, 9) (9, 9, 9)
      (by decide)),
   C7_shape_mismatch.2 [0] [0, 0] [0] [0] (-1) (by decide)⟩

/-- C8 counterexample: the claim says no operation mutates any field of an
`InstanceProblemConfig` after `__init__`, but `set_class_names` — an operation of the
system, invoked e.g. from `tests/pipelines/voc_single_image.py` — overwrites
`semantic_class_names`: applying it to the configuration built from `[1, 2]` yields a
configuration different from the original (mutation is modelled by state passing, so a
mutating method is one whose result differs from its receiver). -/
theorem C8_set_class_names_mutates :
    ((InstanceProblemConfig.init [1, 2] none none (-1) false false).bind
        (fun cfg => cfg.set_class_names (some ["a", "b"]))) ≠
      InstanceProblemConfig.init [1, 2] none none (-1) false false := by
  decide

/-- C8 as amended: `set_class_names` is the only mutation of a constructed
`InstanceProblemConfig`, it only overwrites the `semantic_class_names` field (after
validating the length), and every other field is left unchanged by it. -/
theorem C8_only_class_names_mutable (cfg : InstanceProblemConfig)
    (names : Option (List String)) (cfg2 : InstanceProblemConfig)
    (h : cfg.set_class_names names = some cfg2) :
    cfg2.semantic_class_names = names ∧
    cfg2.map_to_semantic = cfg.map_to_semantic ∧
    cfg2.semantic_vals = cfg.semantic_vals ∧
    cfg2.void_value = cfg.void_value ∧
    cfg2.include_instance_channel0 = cfg.include_instance_channel0 ∧
    cfg2.n_instances_by_semantic_id = cfg.n_instances_by_semantic_id ∧
    cfg2.model_n_instances_by_semantic_id = cfg.model_n_instances_by_semantic_id ∧
    cfg2.model_semantic_instance_class_list = cfg.model_semantic_instance_class_list ∧
    cfg2.semantic_instance_class_list = cfg.semantic_instance_class_list ∧
    cfg2.n_semantic_classes = cfg.n_semantic_classes ∧
    cfg2.n_classes = cfg.n_classes ∧
    cfg2.sem_ids_by_instance_id = cfg.sem_ids_by_instance_id ∧
    cfg2.instance_count_id_list = cfg.instance_count_id_list ∧
    cfg2.model_instance_count_id_list = cfg.model_instance_count_id_list ∧
    cfg2.instance_to_semantic_mapping_matrix =
      cfg.instance_to_semantic_mapping_matrix := by
  unfold InstanceProblemConfig.set_class_names at h
  split at h
  case isTrue =>
    have h2 := Option.some.inj h
    subst h2
    exact ⟨rfl, rfl, rfl, rfl, rfl, rfl, rfl, rfl, rfl, rfl, rfl, rfl, rfl, rfl, rfl⟩
  case isFalse => exact absurd h (by simp)

/-- Witness for C8 (amended) at the concrete configuration `cfgW`. -/
theorem C8_only_class_names_mutable_witness :
    cfgW2.semantic_class_names = some ["a", "b"] ∧
    cfgW2.map_to_semantic = cfgW.map_to_semantic ∧
    cfgW2.semantic_vals = cfgW.semantic_vals ∧
    cfgW2.void_value = cfgW.void_value ∧
    cfgW2.include_instance_channel0 = cfgW.include_instance_channel0 ∧
    cfgW2.n_instances_by_semantic_id = cfgW.n_instances_by_semantic_id ∧
    cfgW2.model_n_instances_by_semantic_id = cfgW.model_n_instances_by_semantic_id ∧
    cfgW2.model_semantic_instance_class_list =
      cfgW.model_semantic_instance_class_list ∧
    cfgW2.semantic_instance_class_list = cfgW.semantic_instance_class_list ∧
    cfgW2.n_semantic_classes = cfgW.n_semantic_classes ∧
    cfgW2.n_classes = cfgW.n_classes ∧
    cfgW2.sem_ids_by_instance_id = cfgW.sem_ids_by_instance_id ∧
    cfgW2.instance_count_id_list = cfgW.instance_count_id_list ∧
    cfgW2.model_instance_count_id_list = cfgW.model_instance_count_id_list ∧
    cfgW2.instance_to_semantic_mapping_matrix =
      cfgW.instance_to_semantic_mapping_matrix :=
  C8_only_class_names_mutable cfgW (some ["a", "b"]) cfgW2 (by decide)

/-- C9: `map_to_semantic` collapses instance channels to one per class.  Whenever a
configuration is successfully constructed with `map_to_semantic = True` from an
`n_instances_by_semantic_id` of length `S`, its `semantic_instance_class_list` is
`[0, 1, ..., S-1]` (exactly one channel per semantic class) and
`n_classes = n_semantic_classes = S`. -/
theorem C9_map_to_semantic_collapse (n_instances_by_semantic_id : List Nat)
    (names : Option (List String)) (vals : Option (List Nat)) (void_value : Int)
    (ic0 : Bool) (cfg : InstanceProblemConfig)
    (h : InstanceProblemConfig.init n_instances_by_semantic_id names vals void_value
      ic0 true = some cfg) :
    cfg.semantic_instance_class_list =
        List.range n_instances_by_semantic_id.length ∧
      cfg.n_classes = n_instances_by_semantic_id.length ∧
      cfg.n_semantic_classes = n_instances_by_semantic_id.length := by
  unfold InstanceProblemConfig.init at h
  simp only [if_pos, if_true] at h
  have hvals : ∀ (cfg2 : InstanceProblemConfig), some cfg2 = some cfg →
      cfg2.semantic_instance_class_list =
          List.range n_instances_by_semantic_id.length →
      cfg2.n_classes = n_instances_by_semantic_id.length →
      cfg2.n_semantic_classes = n_instances_by_semantic_id.length →
      cfg.semantic_instance_class_list =
          List.range n_instances_by_semantic_id.length ∧
        cfg.n_classes = n_instances_by_semantic_id.length ∧
        cfg.n_semantic_classes = n_instances_by_semantic_id.length := by
    intro cfg2 heq h1 h2 h3
    rw [← Option.some.inj heq]
    exact ⟨h1, h2, h3⟩
  cases vals with
  | none =>
      simp only [Option.pure_def, Option.bind_eq_bind] at h
      cases hicl : get_instance_count_id_list
          (get_semantic_instance_class_list
            (n_instances_by_semantic_id.map fun _ => 1)) [0] ic0 with
      | none => rw [hicl] at h; exact absurd h (by simp)
      | some icl =>
          rw [hicl] at h
          cases hicl2 : get_instance_count_id_list
              (get_semantic_instance_class_list n_instances_by_semantic_id) [0]
              ic0 with
          | none => rw [hicl2] at h; exact absurd h (by simp)
          | some icl2 =>
              rw [hicl2] at h
              cases hmat : get_instance_to_semantic_mapping
                  (n_instances_by_semantic_id.map fun _ => 1) with
              | none => rw [hmat] at h; exact absurd h (by simp)
              | some mat =>
                  rw [hmat] at h
                  simp only [Option.some_bind] at h
                  exact hvals _ h (gsicl_ones _) (by simp) (by simp)
  | some v =>
      by_cases hg : v.length = n_instances_by_semantic_id.length
      · simp only [hg, guard_true, Option.pure_def, Option.bind_eq_bind,
          Option.some_bind] at h
        cases hicl : get_instance_count_id_list
            (get_semantic_instance_class_list
              (n_instances_by_semantic_id.map fun _ => 1)) [0] ic0 with
        | none => rw [hicl] at h; exact absurd h (by simp)
        | some icl =>
            rw [hicl] at h
            cases hicl2 : get_instance_count_id_list
                (get_semantic_instance_class_list n_instances_by_semantic_id) [0]
                ic0 with
            | none => rw [hicl2] at h; exact absurd h (by simp)
            | some icl2 =>
                rw [hicl2] at h
                cases hmat : get_instance_to_semantic_mapping
                    (n_instances_by_semantic_id.map fun _ => 1) with
                | none => rw [hmat] at h; exact absurd h (by simp)
                | some mat =>
                    rw [hmat] at h
                    simp only [Option.some_bind] at h
                    refine hvals _ h (gsicl_ones _) ?_ ?_
                    · by_cases hv : v.isEmpty <;> simp [hv, hg]
                    · by_cases hv : v.isEmpty <;> simp [hv, hg]
      · have hfail : (guard (v.length = n_instances_by_semantic_id.length) :
            Option Unit) = none := by simp only [hg, guard_false]; rfl
        simp only [Option.pure_def, Option.bind_eq_bind] at h
        rw [hfail] at h
        simp only [Option.none_bind] at h
        exact absurd h (by simp)

/-- Witness for C9 at a concrete input: `[1, 3, 2]` with `map_to_semantic = True`. -/
theorem C9_map_to_semantic_collapse_witness :
    ((InstanceProblemConfig.init [1, 3, 2] none none (-1) false true).getD cfgW
          |>.semantic_instance_class_list) =
        List.range ([1, 3, 2] : List Nat).length ∧
      ((InstanceProblemConfig.init [1, 3, 2] none none (-1) false true).getD cfgW
          |>.n_classes) = ([1, 3, 2] : List Nat).length ∧
      ((InstanceProblemConfig.init [1, 3, 2] none none (-1) false true).getD cfgW
          |>.n_semantic_classes) = ([1, 3, 2] : List Nat).length :=
  C9_map_to_semantic_collapse [1, 3, 2] none none (-1) false _ (by decide)

theorem findIdx_of_unique {α : Type} (p : α → Bool) (d : α) :
    ∀ (l : List α) (i : Nat), i < l.length →
      (∀ j, j < l.length → (p (l.getD j d) = true ↔ j = i)) → l.findIdx p = i := by
  intro l
  induction l with
  | nil => intro i hi _; simp at hi
  | cons x xs ih =>
      intro i hi hp
      cases i with
      | zero =>
          have hx : p x = true := (hp 0 (by simp)).mpr rfl
          simp [List.findIdx_cons, hx]
      | succ k =>
          have hx : p x = false := by
            cases hpx : p x
            · rfl
            · have := (hp 0 (by simp)).mp (by rw [List.getD_cons_zero]; exact hpx)
              omega
          rw [List.findIdx_cons, hx, cond_false]
          have hk : k < xs.length := by simp at hi; omega
          rw [ih k hk ?_]
          intro j hj
          have hstep := hp (j + 1) (by simp; omega)
          rw [List.getD_cons_succ] at hstep
          constructor
          · intro hpj
            have := hstep.mp hpj
            omega
          · intro hj2
            exact hstep.mpr (by omega)

theorem channel_argmax_of_unique (l : List Int) (i : Nat) (hi : i < l.length)
    (h : ∀ j, j < l.length → j ≠ i → l.getD j 0 < l.getD i 0) :
    channel_argmax l = i := by
  apply findIdx_of_unique _ 0 l i hi
  intro j hj
  constructor
  · intro hpj
    by_contra hne
    have hlt := h j hj hne
    have hmem : l.getD i 0 ∈ l := by
      rw [List.getD_eq_getElem l 0 hi]
      exact List.getElem_mem hi
    have hle := List.all_eq_true.mp hpj _ hmem
    simp only [decide_eq_true_eq] at hle
    omega
  · intro hj2
    subst hj2
    apply List.all_eq_true.mpr
    intro y hy
    rcases List.mem_iff_getElem.mp hy with ⟨k, hk, hky⟩
    simp only [decide_eq_true_eq]
    by_cases hkj : k = j
    · subst hkj
      rw [← hky, List.getD_eq_getElem l 0 hk]
    · have := h k hk hkj
      rw [List.getD_eq_getElem l 0 hk] at this
      rw [← hky]
      omega

theorem getD_zipWith {α β γ : Type} (f : α → β → γ) (l1 : List α) (l2 : List β)
    (i : Nat) (d1 : α) (d2 : β) (d3 : γ) (h1 : i < l1.length) (h2 : i < l2.length) :
    (List.zipWith f l1 l2).getD i d3 = f (l1.getD i d1) (l2.getD i d2) := by
  rw [List.getD_eq_getElem?_getD, List.getElem?_zipWith,
    List.getElem?_eq_getElem h1, List.getElem?_eq_getElem h2,
    List.getD_eq_getElem l1 d1 h1, List.getD_eq_getElem l2 d2 h2]
  rfl

theorem col_getD (img : List (List Int)) (p c : Nat) :
    (img.map (fun chArr => chArr.getD p 0)).getD c 0 = (img.getD c []).getD p 0 := by
  by_cases hc : c < img.length
  · rw [List.getD_eq_getElem?_getD, List.getElem?_map,
      List.getElem?_eq_getElem hc, List.getD_eq_getElem img [] hc]
    rfl
  · rw [List.getD_eq_getElem?_getD, List.getElem?_map,
      List.getElem?_eq_none (by omega),
      List.getD_eq_getElem?_getD img, List.getElem?_eq_none (by omega)]
    rfl

theorem permute_scores_batch1 (score : List (List (List Int)))
    (perms : List (List Nat)) (h1 : score.length = 1)
    (hch : (score.getD 0 []).length ≠ 0) :
    permute_scores score perms =
      some ((List.range score.length).map (fun b =>
        (List.range (score.getD b []).length).map (fun ch =>
          (score.getD b []).getD ((perms.getD b []).getD ch 0) []))) := by
  unfold permute_scores
  rw [if_neg hch, if_pos h1]

theorem channelwise_argmax_getD (img : List (List Int)) (p : Nat)
    (hp : p < (img.getD 0 []).length) :
    (channelwise_argmax img).getD p 0 =
      ((channel_argmax (img.map (fun chArr => chArr.getD p 0)) : Nat) : Int) :=
  getD_range_map _ _ _ _ hp

theorem channelwise_argmax_length (img : List (List Int)) :
    (channelwise_argmax img).length = (img.getD 0 []).length := by
  simp [channelwise_argmax]

theorem substStep_length (orig cur : List (List Int)) (oldc newc : Int)
    (h : cur.length = orig.length) :
    (substStep orig cur oldc newc).length = orig.length := by
  simp [substStep, h]

theorem substStep_getD_length (orig cur : List (List Int)) (oldc newc : Int)
    (b : Nat) (hlen : cur.length = orig.length)
    (hinner : (cur.getD b []).length = (orig.getD b []).length)
    (hb : b < orig.length) :
    ((substStep orig cur oldc newc).getD b []).length = (orig.getD b []).length := by
  rw [substStep, getD_zipWith _ orig cur b [] [] [] hb (by omega),
    List.length_zipWith, hinner]
  omega

theorem substStep_getD (orig cur : List (List Int)) (oldc newc : Int) (b p : Nat)
    (hlen : cur.length = orig.length)
    (hinner : (cur.getD b []).length = (orig.getD b []).length)
    (hb : b < orig.length) (hp : p < (orig.getD b []).length) :
    ((substStep orig cur oldc newc).getD b []).getD p 0 =
      if (orig.getD b []).getD p 0 = oldc then newc
      else (cur.getD b []).getD p 0 := by
  rw [substStep, getD_zipWith _ orig cur b [] [] [] hb (by omega),
    getD_zipWith _ _ _ p 0 0 0 hp (by omega)]

theorem rowpass_props (orig : List (List Int)) :
    ∀ (ps : List (Nat × Nat)) (cur : List (List Int)),
      cur.length = orig.length →
      (∀ i, i < orig.length → (cur.getD i []).length = (orig.getD i []).length) →
      (ps.foldl (fun c2 pr => substStep orig c2 (pr.2 : Int) (pr.1 : Int))
          cur).length = orig.length ∧
      (∀ i, i < orig.length →
        ((ps.foldl (fun c2 pr => substStep orig c2 (pr.2 : Int) (pr.1 : Int))
            cur).getD i []).length = (orig.getD i []).length) ∧
      (∀ b p, b < orig.length → p < (orig.getD b []).length →
        ((ps.foldl (fun c2 pr => substStep orig c2 (pr.2 : Int) (pr.1 : Int))
            cur).getD b []).getD p 0 =
          ps.foldl (fun v pr =>
            if (orig.getD b []).getD p 0 = (pr.2 : Int) then (pr.1 : Int) else v)
            ((cur.getD b []).getD p 0)) := by
  intro ps
  induction ps with
  | nil =>
      intro cur h1 h2
      exact ⟨h1, h2, fun b p _ _ => rfl⟩
  | cons pr rest ih =>
      intro cur h1 h2
      rw [List.foldl_cons]
      have h1s : (substStep orig cur (pr.2 : Int) (pr.1 : Int)).length =
          orig.length := substStep_length _ _ _ _ h1
      have h2s : ∀ i, i < orig.length →
          ((substStep orig cur (pr.2 : Int) (pr.1 : Int)).getD i []).length =
            (orig.getD i []).length :=
        fun i hi => substStep_getD_length _ _ _ _ i h1 (h2 i hi) hi
      obtain ⟨g1, g2, g3⟩ := ih (substStep orig cur (pr.2 : Int) (pr.1 : Int)) h1s h2s
      refine ⟨g1, g2, fun b p hb hp => ?_⟩
      rw [g3 b p hb hp, List.foldl_cons,
        substStep_getD _ _ _ _ b p h1 (h2 b hb) hb hp]

theorem permfold_props (orig : List (List Int)) :
    ∀ (perms : List (List Nat)) (cur : List (List Int)),
      cur.length = orig.length →
      (∀ i, i < orig.length → (cur.getD i []).length = (orig.getD i []).length) →
      (perms.foldl (fun c row => row.enum.foldl
          (fun c2 pr => substStep orig c2 (pr.2 : Int) (pr.1 : Int)) c)
          cur).length = orig.length ∧
      (∀ i, i < orig.length →
        ((perms.foldl (fun c row => row.enum.foldl
            (fun c2 pr => substStep orig c2 (pr.2 : Int) (pr.1 : Int)) c)
            cur).getD i []).length = (orig.getD i []).length) ∧
      (∀ b p, b < orig.length → p < (orig.getD b []).length →
        ((perms.foldl (fun c row => row.enum.foldl
            (fun c2 pr => substStep orig c2 (pr.2 : Int) (pr.1 : Int)) c)
            cur).getD b []).getD p 0 =
          perms.foldl (fun v row => row.enum.foldl (fun v2 pr =>
            if (orig.getD b []).getD p 0 = (pr.2 : Int) then (pr.1 : Int) else v2) v)
            ((cur.getD b []).getD p 0)) := by
  intro perms
  induction perms with
  | nil =>
      intro cur h1 h2
      exact ⟨h1, h2, fun b p _ _ => rfl⟩
  | cons row rest ih =>
      intro cur h1 h2
      rw [List.foldl_cons]
      obtain ⟨r1, r2, r3⟩ := rowpass_props orig row.enum cur h1 h2
      obtain ⟨g1, g2, g3⟩ := ih _ r1 r2
      refine ⟨g1, g2, fun b p hb hp => ?_⟩
      rw [g3 b p hb hp, r3 b p hb hp, List.foldl_cons]

theorem permute_labels_getD (label_preds : List (List Int))
    (perms : List (List Nat)) (b p : Nat) (hb : b < label_preds.length)
    (hp : p < (label_preds.getD b []).length) :
    ((permute_labels label_preds perms).getD b []).getD p 0 =
      perms.foldl (fun v row => row.enum.foldl (fun v2 pr =>
        if (label_preds.getD b []).getD p 0 = (pr.2 : Int) then (pr.1 : Int) else v2)
        v) ((label_preds.getD b []).getD p 0) :=
  (permfold_props label_preds perms label_preds rfl (fun _ _ => rfl)).2.2 b p hb hp

theorem scalar_row_no_match (o : Int) :
    ∀ (row : List Nat) (k : Nat) (v : Int), (∀ x ∈ row, o ≠ (x : Int)) →
      (List.enumFrom k row).foldl (fun v2 pr =>
        if o = (pr.2 : Int) then (pr.1 : Int) else v2) v = v := by
  intro row
  induction row with
  | nil => intro k v _; rfl
  | cons x rest ih =>
      intro k v h
      rw [List.enumFrom_cons, List.foldl_cons]
      rw [if_neg (h x (by simp))]
      exact ih (k + 1) v (fun y hy => h y (by simp [hy]))

theorem scalar_row_unique (o : Int) :
    ∀ (row : List Nat) (k cstar : Nat) (v : Int), cstar < row.length →
      (∀ idx, idx < row.length → (o = ((row.getD idx 0 : Nat) : Int) ↔ idx = cstar)) →
      (List.enumFrom k row).foldl (fun v2 pr =>
        if o = (pr.2 : Int) then (pr.1 : Int) else v2) v = ((k + cstar : Nat) : Int) := by
  intro row
  induction row with
  | nil => intro k cstar v hc _; simp at hc
  | cons x rest ih =>
      intro k cstar v hc hiff
      rw [List.enumFrom_cons, List.foldl_cons]
      cases cstar with
      | zero =>
          have hcond : o = (x : Int) := by
            have := (hiff 0 (by simp)).mpr rfl
            rwa [List.getD_cons_zero] at this
          have hnm : ∀ y ∈ rest, o ≠ (y : Int) := by
            intro y hy heq
            rcases List.mem_iff_getElem.mp hy with ⟨idx, hidx, hval⟩
            have := (hiff (idx + 1) (by simp; omega)).mp
              (by rw [List.getD_cons_succ, List.getD_eq_getElem rest 0 hidx, hval]
                  exact heq)
            omega
          rw [if_pos hcond, scalar_row_no_match o rest (k + 1) (k : Int) hnm]
          norm_num
      | succ j =>
          have hx : o ≠ (x : Int) := by
            intro heq
            have := (hiff 0 (by simp)).mp (by rw [List.getD_cons_zero]; exact heq)
            omega
          rw [if_neg hx]
          have hrec := ih (k + 1) j v (by simp at hc; omega) ?_
          · rw [hrec]
            congr 1
            omega
          · intro idx hidx
            have := hiff (idx + 1) (by simp; omega)
            rw [List.getD_cons_succ] at this
            constructor
            · intro heq
              have := this.mp heq
              omega
            · intro heq
              exact this.mpr (by omega)

theorem foldl_row_const {α : Type} (f : Int → α → Int) (k : Int) :
    ∀ (l : List α), l ≠ [] → (∀ v x, x ∈ l → f v x = k) →
      ∀ v, l.foldl f v = k := by
  intro l
  induction l with
  | nil => intro h _ _; exact absurd rfl h
  | cons x rest ih =>
      intro _ hconst v
      rw [List.foldl_cons, hconst v x (by simp)]
      cases rest with
      | nil => rfl
      | cons y t =>
          exact ih (by simp) (fun v2 x2 hx2 => hconst v2 x2 (by simp [hx2])) k

theorem foldl_row_id {α : Type} (f : Int → α → Int) :
    ∀ (l : List α) (v : Int), (∀ x ∈ l, f v x = v) → l.foldl f v = v := by
  intro l
  induction l with
  | nil => intro v _; rfl
  | cons x rest ih =>
      intro v h
      rw [List.foldl_cons, h x (by simp)]
      exact ih v (fun y hy => h y (by simp [hy]))

/-- C10 counterexample: at batch size 2 with two (valid, bijective) permutation rows
and a unique channel-wise argmax at every pixel, the program does not return a
permuted score at all — the advanced-index assignment in `permute_scores` raises a
shape error (`(2, 2, H, W)` into `(2, H, W)`), modelled as `none` — so the claimed
argmax equality has no left-hand side.  Independently, `permute_labels` relabels
image 0's argmax 0 to 1 through the second image's swap row (its loop body carries no
batch index), even though image 0's own row is the identity. -/
theorem C10_batch_rows_break_commutation :
    (∀ row ∈ ([[0, 1], [1, 0]] : List (List Nat)),
      row.length = 2 ∧ (∀ c ∈ row, c < 2) ∧ row.Nodup) ∧
    (∀ j, j < 2 → j ≠ 0 →
      ((([[[10], [0]], [[10], [0]]] : List (List (List Int))).getD 0 []).map
          (fun chArr => chArr.getD 0 0)).getD j 0 <
        ((([[[10], [0]], [[10], [0]]] : List (List (List Int))).getD 0 []).map
          (fun chArr => chArr.getD 0 0)).getD 0 0) ∧
    permute_scores [[[10], [0]], [[10], [0]]] [[0, 1], [1, 0]] = none ∧
    ((([[[10], [0]], [[10], [0]]] : List (List (List Int))).map
        channelwise_argmax).getD 0 []).getD 0 0 = 0 ∧
    ((permute_labels (([[[10], [0]], [[10], [0]]] :
        List (List (List Int))).map channelwise_argmax)
      [[0, 1], [1, 0]]).getD 0 []).getD 0 0 = 1 := by
  refine ⟨by decide, by decide, by decide, by decide, by decide⟩

/-- C10 as amended: for batch size 1 — the only batch size at which `permute_scores`
returns at all; for batch ≥ 2 its advanced-index assignment raises a shape error —
`permute_scores` succeeds and permuting scores commutes with permuting argmax labels
at every pixel with a unique channel-wise argmax; and label values outside
`[0, n_channels)` (e.g. the void value) are left unchanged by `permute_labels`.
For batch ≥ 2 the original claim fails (see the counterexample): `permute_scores`
raises, and `permute_labels` applies every row to the entire batch. -/
theorem C10_permute_commutation_batch1 (score : List (List (List Int)))
    (perms : List (List Nat)) (r : List Nat) (n m : Nat)
    (hn : 0 < n)
    (hbatch1 : score.length = 1)
    (hrows : ∀ row ∈ perms, row = r)
    (hbatch : perms.length = score.length)
    (hshape : ∀ img ∈ score, img.length = n ∧ ∀ ch ∈ img, ch.length = m)
    (hrlen : r.length = n)
    (hrlt : ∀ c ∈ r, c < n)
    (hrinj : ∀ c1, c1 < n → ∀ c2, c2 < n → r.getD c1 0 = r.getD c2 0 → c1 = c2)
    (hrsurj : ∀ v, v < n → ∃ c, c < n ∧ r.getD c 0 = v) :
    (∀ b p, b < score.length → p < m →
      (∃ i, i < n ∧ ∀ j, j < n → j ≠ i →
        ((score.getD b []).map (fun chArr => chArr.getD p 0)).getD j 0 <
          ((score.getD b []).map (fun chArr => chArr.getD p 0)).getD i 0) →
      ∃ ps, permute_scores score perms = some ps ∧
        (channelwise_argmax (ps.getD b [])).getD p 0 =
          ((permute_labels (score.map channelwise_argmax) perms).getD b []).getD
            p 0) ∧
    (∀ (label_preds : List (List Int)) b p, b < label_preds.length →
      p < (label_preds.getD b []).length →
      ((label_preds.getD b []).getD p 0 < 0 ∨
        (n : Int) ≤ (label_preds.getD b []).getD p 0) →
      ((permute_labels label_preds perms).getD b []).getD p 0 =
        (label_preds.getD b []).getD p 0) := by
  constructor
  · intro b p hb hp huniq
    have hbp : b < perms.length := by rw [hbatch]; exact hb
    have hrowb : perms.getD b [] = r := by
      apply hrows
      rw [List.getD_eq_getElem _ _ hbp]
      exact List.getElem_mem hbp
    have himgmem : score.getD b [] ∈ score := by
      rw [List.getD_eq_getElem _ _ hb]
      exact List.getElem_mem hb
    obtain ⟨himglen, hch⟩ := hshape _ himgmem
    have hb0 : b = 0 := by omega
    have hps := permute_scores_batch1 score perms hbatch1
      (by rw [← hb0, himglen]; omega)
    refine ⟨_, hps, ?_⟩
    obtain ⟨i, hi, hmax⟩ := huniq
    have hcollen : ((score.getD b []).map (fun chArr => chArr.getD p 0)).length =
        n := by rw [List.length_map, himglen]
    have ha : channel_argmax
        ((score.getD b []).map (fun chArr => chArr.getD p 0)) = i :=
      channel_argmax_of_unique _ i (by rw [hcollen]; exact hi)
        (fun j hj hne => hmax j (by rwa [hcollen] at hj) hne)
    obtain ⟨cs, hcs, hcsr⟩ := hrsurj i hi
    have hrmem : ∀ j, j < n → r.getD j 0 ∈ r := by
      intro j hj
      rw [List.getD_eq_getElem r 0 (by rw [hrlen]; exact hj)]
      exact List.getElem_mem _
    have hchlen : ∀ c, c < n → ((score.getD b []).getD c []).length = m := by
      intro c hc
      apply hch
      rw [List.getD_eq_getElem (score.getD b []) [] (by rw [himglen]; exact hc)]
      exact List.getElem_mem _
    rw [getD_range_map _ _ _ _ hb, hrowb]
    have h0len : (((List.range (score.getD b []).length).map (fun ch =>
        (score.getD b []).getD (r.getD ch 0) [])).getD 0 []).length = m := by
      rw [getD_range_map _ _ _ _ (by rw [himglen]; exact hn)]
      exact hchlen _ (hrlt _ (hrmem 0 hn))
    rw [channelwise_argmax_getD _ p (by rw [h0len]; exact hp)]
    have hpcol : ∀ j, j < n →
        ((((List.range (score.getD b []).length).map (fun ch =>
            (score.getD b []).getD (r.getD ch 0) [])).map
          (fun chArr => chArr.getD p 0)).getD j 0) =
          ((score.getD b []).map (fun chArr => chArr.getD p 0)).getD
            (r.getD j 0) 0 := by
      intro j hj
      rw [col_getD, getD_range_map _ _ _ _ (by rw [himglen]; exact hj), col_getD]
    have hpcollen : ((((List.range (score.getD b []).length).map (fun ch =>
        (score.getD b []).getD (r.getD ch 0) [])).map
        (fun chArr => chArr.getD p 0))).length = n := by
      rw [List.length_map, List.length_map, List.length_range, himglen]
    have hargmax2 : channel_argmax (((List.range (score.getD b []).length).map
        (fun ch => (score.getD b []).getD (r.getD ch 0) [])).map
        (fun chArr => chArr.getD p 0)) = cs := by
      apply channel_argmax_of_unique _ cs (by rw [hpcollen]; exact hcs)
      intro j hj hne
      rw [hpcollen] at hj
      rw [hpcol j hj, hpcol cs hcs, hcsr]
      apply hmax
      · exact hrlt _ (hrmem j hj)
      · intro heq
        exact hne (hrinj j hj cs hcs (by rw [hcsr]; exact heq))
    rw [hargmax2]
    have hlblen : (score.map channelwise_argmax).length = score.length :=
      List.length_map _ _
    have hlb : (score.map channelwise_argmax).getD b [] =
        channelwise_argmax (score.getD b []) := by
      rw [List.getD_eq_getElem?_getD, List.getElem?_map,
        List.getElem?_eq_getElem hb, List.getD_eq_getElem score [] hb]
      rfl
    have ho : ((score.map channelwise_argmax).getD b []).getD p 0 = (i : Int) := by
      rw [hlb, channelwise_argmax_getD _ p (by rw [hchlen 0 hn]; exact hp), ha]
    rw [permute_labels_getD _ perms b p (by rw [hlblen]; exact hb)
      (by rw [hlb, channelwise_argmax_length, hchlen 0 hn]; exact hp), ho]
    refine Eq.symm (foldl_row_const _ _ perms
      (by intro hnil; rw [hnil] at hbp; simp at hbp) ?_ _)
    intro v row hrow
    rw [hrows row hrow, List.enum_eq_enumFrom]
    have hiff : ∀ idx, idx < r.length →
        (((i : Nat) : Int) = ((r.getD idx 0 : Nat) : Int) ↔ idx = cs) := by
      intro idx hidx
      rw [hrlen] at hidx
      constructor
      · intro heq
        exact hrinj idx hidx cs hcs (by rw [hcsr]; exact (Int.ofNat_inj.mp heq).symm)
      · intro heq
        subst heq
        rw [hcsr]
    have := scalar_row_unique (i : Int) r 0 cs v (by rw [hrlen]; exact hcs) hiff
    rw [this]
    norm_num
  · intro label_preds b p hb hp hout
    rw [permute_labels_getD label_preds perms b p hb hp]
    apply foldl_row_id
    intro row hrow
    rw [hrows row hrow, List.enum_eq_enumFrom]
    apply scalar_row_no_match
    intro x hx heq
    have := hrlt x hx
    omega

/-- Witness for C10 (amended) at a concrete input: batch 1, two channels, one pixel,
scores `[5, 3]`, swap permutation `[1, 0]`; and a void label `-1` left unchanged. -/
theorem C10_permute_commutation_batch1_witness :
    (∃ ps, permute_scores [[[5], [3]]] [[1, 0]] = some ps ∧
      (channelwise_argmax (ps.getD 0 [])).getD 0 0 =
        ((permute_labels (([[[5], [3]]] : List (List (List Int))).map
            channelwise_argmax) [[1, 0]]).getD 0 []).getD 0 0) ∧
    ((permute_labels [[-1]] [[1, 0]]).getD 0 []).getD 0 0 =
      (([[-1]] : List (List Int)).getD 0 []).getD 0 0 := by
  have h := C10_permute_commutation_batch1 [[[5], [3]]] [[1, 0]] [1, 0] 2 1
    (by decide) (by decide) (by decide) (by decide) (by decide) (by decide)
    (by decide) (by decide)
    (by intro v hv
        interval_cases v
        · exact ⟨1, by decide, by decide⟩
        · exact ⟨0, by decide, by decide⟩)
  exact ⟨h.1 0 0 (by decide) (by decide) ⟨0, by decide, by decide⟩,
    h.2 [[-1]] 0 0 (by decide) (by decide) (Or.inl (by decide))⟩

end InstanceSeg
